import Mathlib

/-!
Xapian enquire internals (common/omenquireinternal.h)

A shallow embedding of the value types declared in `omenquireinternal.h`
(`ESetItem`, `MSetItem`, `MSet::Internal`, `ESet::Internal`) together with their
constructors and `swap`, followed by the properties established about them.

Modelling conventions
* `Xapian::weight` is a C++ `double`.  A finite double is a rational number and
  is represented by it; NaN and the infinities are not represented.  The data
  types only move weights around.  Where a product or a quotient of doubles is
  computed, the exact result is rounded by `fl64` to the nearest double (ties to
  even, 53-bit significand); the exponent range is taken unbounded, so overflow
  and underflow do not occur.
* `Xapian::docid`, `Xapian::doccount` and `Xapian::termcount` are unsigned
  machine integers on which this header performs no arithmetic; they are
  represented by `Nat`.
* `std::string` is represented by `String`, `std::vector` by `List`,
  `std::set` by the list of its elements and `std::map` by the list of its
  key/value pairs.
* `Xapian::Document` and `Enquire::Internal` handles are declared outside the
  header; the result type is parametric in them.  A `RefCntPtr` is an optional
  handle, `none` being the null pointer a default-constructed pointer holds.
-/

namespace Xapian

/-- The type `Xapian::weight` (a `double`), as an exact rational. -/
abbrev weight := ℚ

/-- The type `Xapian::docid`. -/
abbrev docid := Nat

/-- The type `Xapian::doccount`. -/
abbrev doccount := Nat

/-- The type `Xapian::termcount`. -/
abbrev termcount := Nat

/-- The type `Xapian::percent` (an `int`). -/
abbrev percent := Int

/-- A reference counted pointer; `none` is the null pointer. -/
abbrev RefCntPtr (α : Type) := Option α

namespace Internal

/-- An item in the ESet: a suggested term and its weight. -/
structure ESetItem where
  wt : weight
  tname : String
deriving DecidableEq, Repr

/-- Constructor `ESetItem(wt_, tname_)`. -/
def ESetItem.ESetItem2 (wt_ : weight) (tname_ : String) : ESetItem :=
  { wt := wt_, tname := tname_ }

/-- An item resulting from a query, fields in declaration order. -/
structure MSetItem where
  wt : weight
  did : docid
  collapse_key : String
  collapse_count : doccount
  sort_key : String
deriving DecidableEq, Repr

/-- Constructor `MSetItem(wt_, did_)`: the two strings are default constructed. -/
def MSetItem.MSetItem2 (wt_ : weight) (did_ : docid) : MSetItem :=
  { wt := wt_, did := did_, collapse_key := "", collapse_count := 0, sort_key := "" }

/-- Constructor `MSetItem(wt_, did_, key_)`. -/
def MSetItem.MSetItem3 (wt_ : weight) (did_ : docid) (key_ : String) : MSetItem :=
  { wt := wt_, did := did_, collapse_key := key_, collapse_count := 0, sort_key := "" }

/-- Constructor `MSetItem(wt_, did_, key_, collapse_count_)`. -/
def MSetItem.MSetItem4 (wt_ : weight) (did_ : docid) (key_ : String)
    (collapse_count_ : doccount) : MSetItem :=
  { wt := wt_, did := did_, collapse_key := key_, collapse_count := collapse_count_,
    sort_key := "" }

/-- The member `void swap(MSetItem & o)`: five `std::swap` calls in sequence.  The pair
returned is the new value of `*this` and the new value of `o`. -/
def MSetItem.swap (self o : MSetItem) : MSetItem × MSetItem :=
  let s1 : MSetItem × MSetItem := ({ self with wt := o.wt }, { o with wt := self.wt })
  let s2 : MSetItem × MSetItem := ({ s1.1 with did := s1.2.did }, { s1.2 with did := s1.1.did })
  let s3 : MSetItem × MSetItem :=
    ({ s2.1 with collapse_key := s2.2.collapse_key },
     { s2.2 with collapse_key := s2.1.collapse_key })
  let s4 : MSetItem × MSetItem :=
    ({ s3.1 with collapse_count := s3.2.collapse_count },
     { s3.2 with collapse_count := s3.1.collapse_count })
  ({ s4.1 with sort_key := s4.2.sort_key }, { s4.2 with sort_key := s4.1.sort_key })

end Internal

open Internal

/-- The structure `MSet::Internal::TermFreqAndWeight`: term frequency and weight of a
query term. -/
structure MSet.Internal.TermFreqAndWeight where
  termfreq : doccount
  termweight : weight
deriving DecidableEq, Repr

/-- The class `MSet::Internal`, data members in declaration order.  The two private
mutable members `requested_docs` and `indexeddocs` form the document cache. -/
structure MSet.Internal (Document Enquire : Type) where
  percent_factor : weight
  requested_docs : List doccount
  indexeddocs : List (doccount × Document)
  enquire : RefCntPtr Enquire
  termfreqandwts : List (String × MSet.Internal.TermFreqAndWeight)
  items : List MSetItem
  firstitem : doccount
  matches_lower_bound : doccount
  matches_estimated : doccount
  matches_upper_bound : doccount
  max_possible : weight
  max_attained : weight

/-- The default constructor `MSet::Internal::Internal()`.  Members without an entry in
the initialiser list are default constructed: empty containers and a null pointer. -/
def MSet.Internal.Internal0 {Document Enquire : Type} : MSet.Internal Document Enquire :=
  { percent_factor := 0
    requested_docs := []
    indexeddocs := []
    enquire := none
    termfreqandwts := []
    items := []
    firstitem := 0
    matches_lower_bound := 0
    matches_estimated := 0
    matches_upper_bound := 0
    max_possible := 0
    max_attained := 0 }

/-- The nine-argument constructor of `MSet::Internal`, parameters in the order of the
source: the upper bound comes before the lower bound and the estimate. -/
def MSet.Internal.Internal9 {Document Enquire : Type}
    (firstitem_ : doccount)
    (matches_upper_bound_ : doccount)
    (matches_lower_bound_ : doccount)
    (matches_estimated_ : doccount)
    (max_possible_ : weight)
    (max_attained_ : weight)
    (items_ : List MSetItem)
    (termfreqandwts_ : List (String × MSet.Internal.TermFreqAndWeight))
    (percent_factor_ : weight) : MSet.Internal Document Enquire :=
  { percent_factor := percent_factor_
    requested_docs := []
    indexeddocs := []
    enquire := none
    termfreqandwts := termfreqandwts_
    items := items_
    firstitem := firstitem_
    matches_lower_bound := matches_lower_bound_
    matches_estimated := matches_estimated_
    matches_upper_bound := matches_upper_bound_
    max_possible := max_possible_
    max_attained := max_attained_ }

/-- The class `ESet::Internal`: the suggested terms and a lower bound on the number of
terms in the full expand result. -/
structure ESet.Internal where
  items : List ESetItem
  ebound : termcount
deriving DecidableEq, Repr

/-- The constructor `ESet::Internal::Internal() : ebound(0)`; `items` is default
constructed, hence empty. -/
def ESet.Internal.Internal0 : ESet.Internal :=
  { items := [], ebound := 0 }

/-! Behaviour declared in the header but implemented elsewhere.

`convert_to_percent_internal` (line 298) and `Enquire::Internal::get_mset` (line 190)
are only declared in this header.  Their behaviour is taken from the specification. -/

/-- The integer nearest to `y`, a tie going to the even neighbour: the rounding mode of
double arithmetic, applied to a significand. -/
def round_even (y : ℚ) : Int :=
  if y - ⌊y⌋ < 1 / 2 then ⌊y⌋
  else if 1 / 2 < y - ⌊y⌋ then ⌊y⌋ + 1
  else if ⌊y⌋ % 2 = 0 then ⌊y⌋ else ⌊y⌋ + 1

/-- The double nearest to the exact value `x`: with `e = Int.log 2 |x| - 52` the
significand `x / 2^e` has magnitude in `[2^52, 2^53)` and is rounded to an integer, ties
to even.  This is the result a C++ `double` operation returns for the exact result `x`
(exponent range unbounded). -/
def fl64 (x : ℚ) : ℚ :=
  if x = 0 then 0
  else (round_even (x / (2 : ℚ) ^ (Int.log 2 |x| - 52)) : ℚ) * (2 : ℚ) ^ (Int.log 2 |x| - 52)

/-- Modelled from the spec: the rounding step `round_up` of percentage conversion
(section 4.3), whose code is not in the header.  The scenario of section 8 fixes its
meaning: 66.67 goes to 67 and 33.33 to 33, so it rounds to the nearest integer, and a
half is rounded up. -/
def round_up (x : weight) : Int := ⌊x + 1 / 2⌋

/-- Modelled from the spec: the factor stored in a result, computed once as
`(max_attained > 0) ? 100.0 / max_attained : 0.0` (section 4.3); the code that computes
it is outside the header.  The quotient is a double. -/
def percent_factor_of (max_attained : weight) : weight :=
  if 0 < max_attained then fl64 (100 / max_attained) else 0

/-- Modelled from the spec: the body of `MSet::Internal::convert_to_percent_internal`,
which the header declares without defining.  Section 4.3 gives it as
`round_up(weight * percent_factor)`, clamped to `[0,100]`; the product is a double. -/
def MSet.Internal.convert_to_percent_internal {Document Enquire : Type}
    (self : MSet.Internal Document Enquire) (wt : weight) : percent :=
  max 0 (min 100 (round_up (fl64 (wt * self.percent_factor))))

/-- Modelled from the spec: collapsing one candidate `c` with a non-empty key into the
entries kept so far, the collapsing code of `get_mset` being outside the header
(section 4.1).  The entry with the higher weight is kept for the key and the key's
suppression counter goes up by one for the duplicate; a key not seen before adds `c`. -/
def collapse_insert (c : MSetItem) : List MSetItem → List MSetItem
  | [] => [c]
  | e :: rest =>
    if e.collapse_key = c.collapse_key then
      (if e.wt < c.wt then { c with collapse_count := e.collapse_count + 1 }
       else { e with collapse_count := e.collapse_count + 1 }) :: rest
    else e :: collapse_insert c rest

/-- Modelled from the spec: one candidate of the evaluator's stream is examined, the
collapsing code of `get_mset` being outside the header.  A candidate with the empty
(null) key is never collapsed; any other is deduplicated by `collapse_insert`. -/
def collapse_step (acc : List MSetItem) (c : MSetItem) : List MSetItem :=
  if c.collapse_key = "" then acc ++ [c] else collapse_insert c acc

/-- Modelled from the spec: the evaluator's candidate stream deduplicated by
`collapse_key` in examination order (section 4.1), the body of `get_mset` being outside
the header. -/
def collapse (stream : List MSetItem) : List MSetItem :=
  stream.foldl collapse_step []

/-- Modelled from the spec: the `items` of the result of
`get_mset(first, maxitems, ...)`, whose body is outside the header (section 4.1).  With
collapsing configured the candidate stream is collapsed during ranking; the ranking
orders the entries by the active sort criterion `le`; the window
`[first, first + maxitems)` of that post-collapse ranking is returned.  The stream holds
the candidates accepted by the decider and the cutoffs. -/
def get_mset_items (le : MSetItem → MSetItem → Bool) (collapsing : Bool)
    (first maxitems : doccount) (stream : List MSetItem) : List MSetItem :=
  (((if collapsing then collapse stream else stream).insertionSort
    (fun a b => le a b = true)).drop first).take maxitems

/-- Two entries do not share a non-empty collapse key. -/
def distinct_keys (a b : MSetItem) : Prop :=
  a.collapse_key ≠ "" → a.collapse_key ≠ b.collapse_key

/-- The test for an entry without a collapse key (the null string). -/
def null_key (e : MSetItem) : Bool := decide (e.collapse_key = "")

/-- Modelled from the spec: the relevance order of section 3, which the header does not
define: descending weight, ties by ascending document id. -/
def by_relevance (a b : MSetItem) : Bool :=
  decide (b.wt < a.wt) || (decide (a.wt = b.wt) && decide (a.did ≤ b.did))

end Xapian

namespace Xapian

open Internal

/-- C7: `MSetItem(w, d)` stores `w` and `d` and leaves `collapse_key` empty,
`collapse_count` zero and `sort_key` empty; `MSetItem(w, d, k)` stores `k` as the
collapse key with count zero; `MSetItem(w, d, k, c)` stores `k` and `c`. -/
theorem MSetItem_constructors_store (w : weight) (d : docid) (k : String) (c : doccount) :
    ((MSetItem.MSetItem2 w d).wt = w ∧ (MSetItem.MSetItem2 w d).did = d ∧
      (MSetItem.MSetItem2 w d).collapse_key = "" ∧
      (MSetItem.MSetItem2 w d).collapse_count = 0 ∧
      (MSetItem.MSetItem2 w d).sort_key = "") ∧
    ((MSetItem.MSetItem3 w d k).wt = w ∧ (MSetItem.MSetItem3 w d k).did = d ∧
      (MSetItem.MSetItem3 w d k).collapse_key = k ∧
      (MSetItem.MSetItem3 w d k).collapse_count = 0 ∧
      (MSetItem.MSetItem3 w d k).sort_key = "") ∧
    ((MSetItem.MSetItem4 w d k c).wt = w ∧ (MSetItem.MSetItem4 w d k c).did = d ∧
      (MSetItem.MSetItem4 w d k c).collapse_key = k ∧
      (MSetItem.MSetItem4 w d k c).collapse_count = c ∧
      (MSetItem.MSetItem4 w d k c).sort_key = "") :=
  ⟨⟨rfl, rfl, rfl, rfl, rfl⟩, ⟨rfl, rfl, rfl, rfl, rfl⟩, ⟨rfl, rfl, rfl, rfl, rfl⟩⟩

/-- C9: `a.swap(b)` exchanges all five fields, so afterwards `a` is the old `b` and
`b` is the old `a`; swapping twice restores both items. -/
theorem MSetItem_swap_exchanges (a b : MSetItem) :
    ((a.swap b).1.wt = b.wt ∧ (a.swap b).1.did = b.did ∧
      (a.swap b).1.collapse_key = b.collapse_key ∧
      (a.swap b).1.collapse_count = b.collapse_count ∧
      (a.swap b).1.sort_key = b.sort_key) ∧
    ((a.swap b).2.wt = a.wt ∧ (a.swap b).2.did = a.did ∧
      (a.swap b).2.collapse_key = a.collapse_key ∧
      (a.swap b).2.collapse_count = a.collapse_count ∧
      (a.swap b).2.sort_key = a.sort_key) ∧
    a.swap b = (b, a) ∧
    (a.swap b).1.swap (a.swap b).2 = (a, b) :=
  ⟨⟨rfl, rfl, rfl, rfl, rfl⟩, ⟨rfl, rfl, rfl, rfl, rfl⟩, rfl, rfl⟩

/-- C1 (as amended): the default constructor gives three zero bounds, which are ordered;
the nine-argument constructor stores its bounds unchecked, so the constructed result has
`matches_lower_bound <= matches_estimated <= matches_upper_bound` exactly when the
arguments passed for these three bounds are ordered that way. -/
theorem Internal_bounds_ordered_iff {Document Enquire : Type}
    (firstitem_ matches_upper_bound_ matches_lower_bound_ matches_estimated_ : doccount)
    (max_possible_ max_attained_ : weight) (items_ : List MSetItem)
    (termfreqandwts_ : List (String × MSet.Internal.TermFreqAndWeight))
    (percent_factor_ : weight) :
    ((MSet.Internal.Internal0 : MSet.Internal Document Enquire).matches_lower_bound
        ≤ (MSet.Internal.Internal0 : MSet.Internal Document Enquire).matches_estimated ∧
      (MSet.Internal.Internal0 : MSet.Internal Document Enquire).matches_estimated
        ≤ (MSet.Internal.Internal0 : MSet.Internal Document Enquire).matches_upper_bound) ∧
    (((MSet.Internal.Internal9 firstitem_ matches_upper_bound_ matches_lower_bound_
          matches_estimated_ max_possible_ max_attained_ items_ termfreqandwts_
          percent_factor_ : MSet.Internal Document Enquire).matches_lower_bound
        ≤ (MSet.Internal.Internal9 firstitem_ matches_upper_bound_ matches_lower_bound_
          matches_estimated_ max_possible_ max_attained_ items_ termfreqandwts_
          percent_factor_ : MSet.Internal Document Enquire).matches_estimated ∧
      (MSet.Internal.Internal9 firstitem_ matches_upper_bound_ matches_lower_bound_
          matches_estimated_ max_possible_ max_attained_ items_ termfreqandwts_
          percent_factor_ : MSet.Internal Document Enquire).matches_estimated
        ≤ (MSet.Internal.Internal9 firstitem_ matches_upper_bound_ matches_lower_bound_
          matches_estimated_ max_possible_ max_attained_ items_ termfreqandwts_
          percent_factor_ : MSet.Internal Document Enquire).matches_upper_bound) ↔
      (matches_lower_bound_ ≤ matches_estimated_ ∧
        matches_estimated_ ≤ matches_upper_bound_)) :=
  ⟨⟨Nat.le_refl 0, Nat.le_refl 0⟩, Iff.rfl⟩

/-- C1 (counterexample): the nine-argument constructor called with upper bound 0, lower
bound 1 and estimate 0 builds a result whose lower bound 1 exceeds its estimate 0. -/
theorem Internal9_bounds_not_ordered :
    (MSet.Internal.Internal9 0 0 1 0 0 0 [] [] 0 : MSet.Internal Unit Unit).matches_lower_bound = 1 ∧
    (MSet.Internal.Internal9 0 0 1 0 0 0 [] [] 0 : MSet.Internal Unit Unit).matches_estimated = 0 ∧
    ¬ ((MSet.Internal.Internal9 0 0 1 0 0 0 [] [] 0 :
          MSet.Internal Unit Unit).matches_lower_bound
        ≤ (MSet.Internal.Internal9 0 0 1 0 0 0 [] [] 0 :
          MSet.Internal Unit Unit).matches_estimated ∧
      (MSet.Internal.Internal9 0 0 1 0 0 0 [] [] 0 :
          MSet.Internal Unit Unit).matches_estimated
        ≤ (MSet.Internal.Internal9 0 0 1 0 0 0 [] [] 0 :
          MSet.Internal Unit Unit).matches_upper_bound) :=
  ⟨rfl, rfl, fun h => absurd h.1 (by decide)⟩

/-- C2: the state built by `ESet::Internal::Internal()`, the only one this header
produces, has `ebound = 0` and no items, so `ebound >= items.size()`. -/
theorem ESet_Internal0_ebound :
    ESet.Internal.Internal0.ebound = 0 ∧
    ESet.Internal.Internal0.items = [] ∧
    ESet.Internal.Internal0.items.length ≤ ESet.Internal.Internal0.ebound :=
  ⟨rfl, rfl, Nat.le_refl 0⟩

/-- C6: the default constructed `MSet::Internal` has no items, `percent_factor = 0`,
`firstitem = 0`, all three match bounds 0 and `max_possible = max_attained = 0`. -/
theorem Internal0_is_empty {Document Enquire : Type} :
    (MSet.Internal.Internal0 : MSet.Internal Document Enquire).items = [] ∧
    (MSet.Internal.Internal0 : MSet.Internal Document Enquire).percent_factor = 0 ∧
    (MSet.Internal.Internal0 : MSet.Internal Document Enquire).firstitem = 0 ∧
    (MSet.Internal.Internal0 : MSet.Internal Document Enquire).matches_lower_bound = 0 ∧
    (MSet.Internal.Internal0 : MSet.Internal Document Enquire).matches_estimated = 0 ∧
    (MSet.Internal.Internal0 : MSet.Internal Document Enquire).matches_upper_bound = 0 ∧
    (MSet.Internal.Internal0 : MSet.Internal Document Enquire).max_possible = 0 ∧
    (MSet.Internal.Internal0 : MSet.Internal Document Enquire).max_attained = 0 :=
  ⟨rfl, rfl, rfl, rfl, rfl, rfl, rfl, rfl⟩

/-- C8: the nine-argument constructor stores each argument in the field of the same
name: the 2nd argument is the upper bound, the 3rd the lower bound, the 4th the
estimate, and `items` and `termfreqandwts` are the argument lists themselves. -/
theorem Internal9_stores_arguments {Document Enquire : Type}
    (firstitem_ matches_upper_bound_ matches_lower_bound_ matches_estimated_ : doccount)
    (max_possible_ max_attained_ : weight) (items_ : List MSetItem)
    (termfreqandwts_ : List (String × MSet.Internal.TermFreqAndWeight))
    (percent_factor_ : weight) :
    (MSet.Internal.Internal9 firstitem_ matches_upper_bound_ matches_lower_bound_
        matches_estimated_ max_possible_ max_attained_ items_ termfreqandwts_
        percent_factor_ : MSet.Internal Document Enquire).firstitem = firstitem_ ∧
    (MSet.Internal.Internal9 firstitem_ matches_upper_bound_ matches_lower_bound_
        matches_estimated_ max_possible_ max_attained_ items_ termfreqandwts_
        percent_factor_ : MSet.Internal Document Enquire).matches_upper_bound
      = matches_upper_bound_ ∧
    (MSet.Internal.Internal9 firstitem_ matches_upper_bound_ matches_lower_bound_
        matches_estimated_ max_possible_ max_attained_ items_ termfreqandwts_
        percent_factor_ : MSet.Internal Document Enquire).matches_lower_bound
      = matches_lower_bound_ ∧
    (MSet.Internal.Internal9 firstitem_ matches_upper_bound_ matches_lower_bound_
        matches_estimated_ max_possible_ max_attained_ items_ termfreqandwts_
        percent_factor_ : MSet.Internal Document Enquire).matches_estimated
      = matches_estimated_ ∧
    (MSet.Internal.Internal9 firstitem_ matches_upper_bound_ matches_lower_bound_
        matches_estimated_ max_possible_ max_attained_ items_ termfreqandwts_
        percent_factor_ : MSet.Internal Document Enquire).max_possible = max_possible_ ∧
    (MSet.Internal.Internal9 firstitem_ matches_upper_bound_ matches_lower_bound_
        matches_estimated_ max_possible_ max_attained_ items_ termfreqandwts_
        percent_factor_ : MSet.Internal Document Enquire).max_attained = max_attained_ ∧
    (MSet.Internal.Internal9 firstitem_ matches_upper_bound_ matches_lower_bound_
        matches_estimated_ max_possible_ max_attained_ items_ termfreqandwts_
        percent_factor_ : MSet.Internal Document Enquire).items = items_ ∧
    (MSet.Internal.Internal9 firstitem_ matches_upper_bound_ matches_lower_bound_
        matches_estimated_ max_possible_ max_attained_ items_ termfreqandwts_
        percent_factor_ : MSet.Internal Document Enquire).termfreqandwts
      = termfreqandwts_ ∧
    (MSet.Internal.Internal9 firstitem_ matches_upper_bound_ matches_lower_bound_
        matches_estimated_ max_possible_ max_attained_ items_ termfreqandwts_
        percent_factor_ : MSet.Internal Document Enquire).percent_factor
      = percent_factor_ :=
  ⟨rfl, rfl, rfl, rfl, rfl, rfl, rfl, rfl, rfl⟩

/-- C10: after either constructor the document cache is empty (`requested_docs` and
`indexeddocs` hold nothing), and every field of a result built by the nine-argument
constructor, cache included, is determined by the arguments. -/
theorem Internal_cache_starts_empty {Document Enquire : Type}
    (firstitem_ matches_upper_bound_ matches_lower_bound_ matches_estimated_ : doccount)
    (max_possible_ max_attained_ : weight) (items_ : List MSetItem)
    (termfreqandwts_ : List (String × MSet.Internal.TermFreqAndWeight))
    (percent_factor_ : weight) :
    ((MSet.Internal.Internal0 : MSet.Internal Document Enquire).requested_docs = [] ∧
      (MSet.Internal.Internal0 : MSet.Internal Document Enquire).indexeddocs = []) ∧
    ((MSet.Internal.Internal9 firstitem_ matches_upper_bound_ matches_lower_bound_
          matches_estimated_ max_possible_ max_attained_ items_ termfreqandwts_
          percent_factor_ : MSet.Internal Document Enquire).requested_docs = [] ∧
      (MSet.Internal.Internal9 firstitem_ matches_upper_bound_ matches_lower_bound_
          matches_estimated_ max_possible_ max_attained_ items_ termfreqandwts_
          percent_factor_ : MSet.Internal Document Enquire).indexeddocs = []) ∧
    (MSet.Internal.Internal9 firstitem_ matches_upper_bound_ matches_lower_bound_
        matches_estimated_ max_possible_ max_attained_ items_ termfreqandwts_
        percent_factor_ : MSet.Internal Document Enquire)
      = ⟨percent_factor_, [], [], none, termfreqandwts_, items_, firstitem_,
          matches_lower_bound_, matches_estimated_, matches_upper_bound_,
          max_possible_, max_attained_⟩ :=
  ⟨⟨rfl, rfl⟩, ⟨rfl, rfl⟩, rfl⟩

/-! Percentage conversion: rounding error of a double operation, then the conversion. -/

theorem round_even_error (y : ℚ) : |(round_even y : ℚ) - y| ≤ 1 / 2 := by
  have h0 : (⌊y⌋ : ℚ) ≤ y := Int.floor_le y
  have h1 : y < (⌊y⌋ : ℚ) + 1 := Int.lt_floor_add_one y
  unfold round_even
  rw [abs_le]
  split_ifs with ha hb hc
  · constructor <;> linarith
  · push_cast; constructor <;> linarith
  · constructor <;> linarith
  · push_cast; constructor <;> linarith

/-- The relative error of rounding to a double is at most `2^-53`. -/
theorem fl64_error (x : ℚ) : |fl64 x - x| ≤ |x| / 2 ^ 53 := by
  unfold fl64
  by_cases hx : x = 0
  · simp [hx]
  · rw [if_neg hx]
    have hpos : 0 < |x| := abs_pos.mpr hx
    have hs : (0 : ℚ) < (2 : ℚ) ^ (Int.log 2 |x| - 52) := zpow_pos (by norm_num) _
    have hlog : ((2 : ℕ) : ℚ) ^ Int.log 2 |x| ≤ |x| := Int.zpow_log_le_self (by norm_num) hpos
    have hsplit : ((2 : ℕ) : ℚ) ^ Int.log 2 |x| = (2 : ℚ) ^ (Int.log 2 |x| - 52) * 2 ^ 52 := by
      rw [Nat.cast_ofNat, zpow_sub₀ (by norm_num : (2 : ℚ) ≠ 0)]
      have h52 : (2 : ℚ) ^ (52 : ℤ) = 2 ^ 52 := by norm_cast
      rw [h52]; field_simp
    have hr := round_even_error (x / (2 : ℚ) ^ (Int.log 2 |x| - 52))
    have hfact : (round_even (x / (2 : ℚ) ^ (Int.log 2 |x| - 52)) : ℚ)
          * (2 : ℚ) ^ (Int.log 2 |x| - 52) - x
        = ((round_even (x / (2 : ℚ) ^ (Int.log 2 |x| - 52)) : ℚ)
            - x / (2 : ℚ) ^ (Int.log 2 |x| - 52)) * (2 : ℚ) ^ (Int.log 2 |x| - 52) := by
      field_simp
    rw [hfact, abs_mul, abs_of_pos hs]
    have h1 : |(round_even (x / (2 : ℚ) ^ (Int.log 2 |x| - 52)) : ℚ)
        - x / (2 : ℚ) ^ (Int.log 2 |x| - 52)| * (2 : ℚ) ^ (Int.log 2 |x| - 52)
        ≤ 1 / 2 * (2 : ℚ) ^ (Int.log 2 |x| - 52) :=
      mul_le_mul_of_nonneg_right hr hs.le
    rw [hsplit] at hlog
    rw [le_div_iff₀ (by norm_num : (0 : ℚ) < 2 ^ 53)]
    nlinarith

/-- Below 1000 in magnitude the rounding error is under a thousandth. -/
theorem fl64_near (x : ℚ) (hx : |x| ≤ 1000) : |fl64 x - x| ≤ 1 / 1000 := by
  have h := fl64_error x
  have h2 : |x| / 2 ^ 53 ≤ 1 / 1000 := by
    rw [div_le_iff₀ (by norm_num : (0 : ℚ) < 2 ^ 53)]
    norm_num
    linarith
  linarith

theorem round_up_eq (v : ℚ) (n : Int) (h1 : (n : ℚ) - 1 / 2 ≤ v) (h2 : v < (n : ℚ) + 1 / 2) :
    round_up v = n := by
  unfold round_up
  rw [Int.floor_eq_iff]
  constructor <;> linarith

/-- A product whose exact value lies within 2/5 of the integer `n` is, once computed in
double precision, rounded to `n`. -/
theorem round_up_fl64_eq (p : ℚ) (n : Int) (hn : |(n : ℚ)| ≤ 900)
    (hp : |p - (n : ℚ)| ≤ 2 / 5) : round_up (fl64 p) = n := by
  have hpb := abs_le.mp hp
  have hnb := abs_le.mp hn
  have hx : |p| ≤ 1000 := by
    rw [abs_le]; constructor <;> linarith
  have hf := abs_le.mp (fl64_near p hx)
  apply round_up_eq <;> linarith

/-- The double stored for `100.0 / 9.0` is within a thousandth of 100/9. -/
theorem stored_factor_near : |percent_factor_of 9 - 100 / 9| ≤ 1 / 1000 := by
  have h : percent_factor_of 9 = fl64 (100 / 9) := by
    unfold percent_factor_of; rw [if_pos (by norm_num)]
  rw [h]
  exact fl64_near _ (by rw [abs_le]; constructor <;> norm_num)

/-- The exact product of a positive weight and the factor stored for it is within
`100 * 2^-53` of 100, hence within 2/5. -/
theorem top_product_near (x : ℚ) (hx : 0 < x) : |x * percent_factor_of x - 100| ≤ 2 / 5 := by
  have h : percent_factor_of x = fl64 (100 / x) := by
    unfold percent_factor_of; rw [if_pos hx]
  rw [h]
  have he := fl64_error (100 / x)
  have hq : (0 : ℚ) < 100 / x := div_pos (by norm_num) hx
  rw [abs_of_pos hq] at he
  have hmul : x * fl64 (100 / x) - 100 = x * (fl64 (100 / x) - 100 / x) := by
    field_simp; ring
  rw [hmul, abs_mul, abs_of_pos hx]
  have h1 : x * |fl64 (100 / x) - 100 / x| ≤ x * (100 / x / 2 ^ 53) :=
    mul_le_mul_of_nonneg_left he hx.le
  have h2 : x * (100 / x / 2 ^ 53) = 100 / 2 ^ 53 := by field_simp; ring
  rw [h2] at h1
  have h3 : (100 : ℚ) / 2 ^ 53 ≤ 2 / 5 := by norm_num
  linarith

/-- The model of double rounding at `100.0 / 9.0`: the double 11.11111111111111. -/
theorem fl64_hundred_ninths : fl64 (100 / 9) = 3127499741229511 / 281474976710656 := by
  decide!

/-- A tie in double arithmetic: `1.5 * (100.0 / 3.0)` has an exact value half way between
two doubles and is rounded to the even one, 50.0, which converts to 50 percent. -/
theorem fl64_tie_is_50 :
    fl64 (3 / 2 * fl64 (100 / 3)) = 50 ∧
    (MSet.Internal.Internal9 0 1 1 1 3 3 [MSetItem.MSetItem2 (3 / 2) 1] []
        (percent_factor_of 3) : MSet.Internal Unit Unit).convert_to_percent_internal (3 / 2)
      = 50 := by
  decide!

/-- C4: `convert_to_percent_internal(wt)` is `round_up(wt * percent_factor)` clamped to
`[0, 100]`, the product being a double `v`: the result is 0 for `v` below 1/2, 100 for
`v` from 99.5 on and the integer nearest to `v` (a half rounded up) in between, hence
always an integer between 0 and 100 inclusive.  With `percent_factor = 100/9`, as the
exact value and as the double stored for `100.0 / 9.0`, the weights 9, 6 and 3 convert
to 100, 67 and 33. -/
theorem convert_to_percent_internal_clamped {Document Enquire : Type}
    (m : MSet.Internal Document Enquire) (wt : weight) :
    m.convert_to_percent_internal wt
      = max 0 (min 100 (round_up (fl64 (wt * m.percent_factor)))) ∧
    (0 ≤ m.convert_to_percent_internal wt ∧ m.convert_to_percent_internal wt ≤ 100) ∧
    (fl64 (wt * m.percent_factor) < 1 / 2 → m.convert_to_percent_internal wt = 0) ∧
    (199 / 2 ≤ fl64 (wt * m.percent_factor) → m.convert_to_percent_internal wt = 100) ∧
    (1 / 2 ≤ fl64 (wt * m.percent_factor) → fl64 (wt * m.percent_factor) < 199 / 2 →
      ((m.convert_to_percent_internal wt : ℚ) - 1 / 2 ≤ fl64 (wt * m.percent_factor) ∧
        fl64 (wt * m.percent_factor) < (m.convert_to_percent_internal wt : ℚ) + 1 / 2)) ∧
    (({ m with percent_factor := 100 / 9 }).convert_to_percent_internal 9 = 100 ∧
      ({ m with percent_factor := 100 / 9 }).convert_to_percent_internal 6 = 67 ∧
      ({ m with percent_factor := 100 / 9 }).convert_to_percent_internal 3 = 33) ∧
    (({ m with percent_factor := percent_factor_of 9 }).convert_to_percent_internal 9 = 100 ∧
      ({ m with percent_factor := percent_factor_of 9 }).convert_to_percent_internal 6 = 67 ∧
      ({ m with percent_factor := percent_factor_of 9 }).convert_to_percent_internal 3
        = 33) := by
  have hs := abs_le.mp stored_factor_near
  have e9 : round_up (fl64 (9 * (100 / 9))) = 100 :=
    round_up_fl64_eq _ 100 (by norm_num) (by norm_num)
  have e6 : round_up (fl64 (6 * (100 / 9))) = 67 :=
    round_up_fl64_eq _ 67 (by norm_num) (by rw [abs_le]; constructor <;> norm_num)
  have e3 : round_up (fl64 (3 * (100 / 9))) = 33 :=
    round_up_fl64_eq _ 33 (by norm_num) (by rw [abs_le]; constructor <;> norm_num)
  have s9 : round_up (fl64 (9 * percent_factor_of 9)) = 100 :=
    round_up_fl64_eq _ 100 (by norm_num)
      (by rw [abs_le]; push_cast; constructor <;> linarith)
  have s6 : round_up (fl64 (6 * percent_factor_of 9)) = 67 :=
    round_up_fl64_eq _ 67 (by norm_num)
      (by rw [abs_le]; push_cast; constructor <;> linarith)
  have s3 : round_up (fl64 (3 * percent_factor_of 9)) = 33 :=
    round_up_fl64_eq _ 33 (by norm_num)
      (by rw [abs_le]; push_cast; constructor <;> linarith)
  have hfl : (⌊fl64 (wt * m.percent_factor) + 1 / 2⌋ : ℚ)
      ≤ fl64 (wt * m.percent_factor) + 1 / 2 := Int.floor_le _
  have hlt : fl64 (wt * m.percent_factor) + 1 / 2
      < (⌊fl64 (wt * m.percent_factor) + 1 / 2⌋ : ℚ) + 1 := Int.lt_floor_add_one _
  refine ⟨rfl, ⟨le_max_left _ _, max_le (by norm_num) (min_le_left _ _)⟩, ?_, ?_, ?_,
    ⟨?_, ?_, ?_⟩, ⟨?_, ?_, ?_⟩⟩
  · intro hv
    have hf : ⌊fl64 (wt * m.percent_factor) + 1 / 2⌋ < 1 :=
      Int.floor_lt.mpr (by push_cast; linarith)
    show max 0 (min 100 ⌊fl64 (wt * m.percent_factor) + 1 / 2⌋) = 0
    omega
  · intro hv
    have hf : 100 ≤ ⌊fl64 (wt * m.percent_factor) + 1 / 2⌋ :=
      Int.le_floor.mpr (by push_cast; linarith)
    show max 0 (min 100 ⌊fl64 (wt * m.percent_factor) + 1 / 2⌋) = 100
    omega
  · intro hv1 hv2
    have hf1 : 1 ≤ ⌊fl64 (wt * m.percent_factor) + 1 / 2⌋ :=
      Int.le_floor.mpr (by push_cast; linarith)
    have hf2 : ⌊fl64 (wt * m.percent_factor) + 1 / 2⌋ < 100 :=
      Int.floor_lt.mpr (by push_cast; linarith)
    have hr : m.convert_to_percent_internal wt = ⌊fl64 (wt * m.percent_factor) + 1 / 2⌋ := by
      show max 0 (min 100 ⌊fl64 (wt * m.percent_factor) + 1 / 2⌋) = _
      omega
    rw [hr]
    constructor <;> linarith
  · show max 0 (min 100 (round_up (fl64 (9 * (100 / 9))))) = 100
    rw [e9]; rfl
  · show max 0 (min 100 (round_up (fl64 (6 * (100 / 9))))) = 67
    rw [e6]; rfl
  · show max 0 (min 100 (round_up (fl64 (3 * (100 / 9))))) = 33
    rw [e3]; rfl
  · show max 0 (min 100 (round_up (fl64 (9 * percent_factor_of 9)))) = 100
    rw [s9]; rfl
  · show max 0 (min 100 (round_up (fl64 (6 * percent_factor_of 9)))) = 67
    rw [s6]; rfl
  · show max 0 (min 100 (round_up (fl64 (3 * percent_factor_of 9)))) = 33
    rw [s3]; rfl

/-- C5: in a result with `max_attained == max_possible > 0` whose `percent_factor` is the
one section 4.3 computes (the double `100.0 / max_attained`, or the same with
`max_possible` as the base) and whose top document is present, the top entry of `items`
having the weight `max_attained`, that top entry converts to 100 percent.  The rounding
of the quotient and of the product to doubles is accounted for. -/
theorem convert_to_percent_internal_top_is_100 {Document Enquire : Type}
    (m : MSet.Internal Document Enquire)
    (hmax : m.max_attained = m.max_possible) (hpos : 0 < m.max_possible)
    (hfactor : m.percent_factor = percent_factor_of m.max_attained ∨
      m.percent_factor = percent_factor_of m.max_possible)
    (htop : m.items.head?.map MSetItem.wt = some m.max_attained) :
    m.items.head?.map (fun e => m.convert_to_percent_internal e.wt) = some 100 := by
  have hpf : m.percent_factor = percent_factor_of m.max_attained := by
    rcases hfactor with h | h
    · exact h
    · rw [h, hmax]
  have hx : 0 < m.max_attained := by rw [hmax]; exact hpos
  cases hitems : m.items.head? with
  | none => rw [hitems] at htop; cases htop
  | some top =>
    rw [hitems] at htop
    have hwt : top.wt = m.max_attained := Option.some.inj htop
    show some (max 0 (min 100 (round_up (fl64 (top.wt * m.percent_factor))))) = some 100
    rw [hwt, hpf, round_up_fl64_eq _ 100 (by norm_num)
      (by push_cast; exact top_product_near _ hx)]
    rfl

/-- C5 (witness): the result of the scenario of section 8, three items of weights 9, 6
and 3 in relevance order, `max_attained = max_possible = 9` and the stored factor
`100.0 / 9.0`. -/
theorem convert_to_percent_internal_top_is_100_witness :
    (MSet.Internal.Internal9 0 3 3 3 9 9
        [MSetItem.MSetItem2 9 1, MSetItem.MSetItem2 6 2, MSetItem.MSetItem2 3 3] []
        (percent_factor_of 9) : MSet.Internal Unit Unit).items.head?.map
      (fun e => (MSet.Internal.Internal9 0 3 3 3 9 9
        [MSetItem.MSetItem2 9 1, MSetItem.MSetItem2 6 2, MSetItem.MSetItem2 3 3] []
        (percent_factor_of 9) : MSet.Internal Unit Unit).convert_to_percent_internal e.wt)
      = some 100 :=
  convert_to_percent_internal_top_is_100
    (MSet.Internal.Internal9 0 3 3 3 9 9
      [MSetItem.MSetItem2 9 1, MSetItem.MSetItem2 6 2, MSetItem.MSetItem2 3 3] []
      (percent_factor_of 9))
    rfl (by show (0 : ℚ) < 9; norm_num) (Or.inl rfl) rfl

/-! Collapsing: lemmas on the kept entries, then the property of the returned items. -/

theorem distinct_keys_symm {a b : MSetItem} (h : distinct_keys a b) : distinct_keys b a := by
  intro hb hba
  exact h (by rw [← hba]; exact hb) hba.symm

/-- The keys held after `collapse_insert`: unchanged when the key of `c` is already
present, extended by that key otherwise. -/
theorem collapse_insert_keys (c : MSetItem) (acc : List MSetItem) :
    (collapse_insert c acc).map MSetItem.collapse_key =
      if c.collapse_key ∈ acc.map MSetItem.collapse_key then acc.map MSetItem.collapse_key
      else acc.map MSetItem.collapse_key ++ [c.collapse_key] := by
  induction acc with
  | nil => simp [collapse_insert]
  | cons e rest ih =>
    unfold collapse_insert
    by_cases hk : e.collapse_key = c.collapse_key
    · rw [if_pos hk]
      have hmem : c.collapse_key ∈ (e :: rest).map MSetItem.collapse_key := by
        simp [hk]
      rw [if_pos hmem]
      by_cases hw : e.wt < c.wt
      · simp [hw, hk]
      · simp [hw]
    · rw [if_neg hk, List.map_cons, ih]
      have hne : c.collapse_key ≠ e.collapse_key := fun h => hk h.symm
      by_cases hm : c.collapse_key ∈ rest.map MSetItem.collapse_key
      · have hm2 : c.collapse_key ∈ (e :: rest).map MSetItem.collapse_key := by
          rw [List.map_cons]; exact List.mem_cons_of_mem _ hm
        rw [if_pos hm, if_pos hm2, List.map_cons]
      · have hm2 : c.collapse_key ∉ (e :: rest).map MSetItem.collapse_key := by
          rw [List.map_cons, List.mem_cons]
          exact fun h => h.elim hne hm
        rw [if_neg hm, if_neg hm2, List.map_cons, List.cons_append]

theorem pairwise_distinct_keys_iff (l : List MSetItem) :
    l.Pairwise distinct_keys ↔
      (l.map MSetItem.collapse_key).Pairwise (fun a b : String => a ≠ "" → a ≠ b) := by
  rw [List.pairwise_map]; rfl

/-- One step of collapsing keeps the kept entries free of shared non-empty keys. -/
theorem collapse_step_distinct (acc : List MSetItem) (c : MSetItem)
    (h : acc.Pairwise distinct_keys) : (collapse_step acc c).Pairwise distinct_keys := by
  unfold collapse_step
  by_cases hc : c.collapse_key = ""
  · rw [if_pos hc, List.pairwise_append]
    refine ⟨h, List.pairwise_singleton _ _, ?_⟩
    intro a _ b hb ha hab
    rw [List.mem_singleton] at hb
    rw [hb, hc] at hab
    exact ha hab
  · rw [if_neg hc, pairwise_distinct_keys_iff, collapse_insert_keys]
    rw [pairwise_distinct_keys_iff] at h
    by_cases hm : c.collapse_key ∈ acc.map MSetItem.collapse_key
    · rw [if_pos hm]; exact h
    · rw [if_neg hm, List.pairwise_append]
      refine ⟨h, List.pairwise_singleton _ _, ?_⟩
      intro a ha b hb _ hab
      rw [List.mem_singleton] at hb
      rw [hb] at hab
      exact hm (hab ▸ ha)

theorem foldl_collapse_step_distinct (stream acc : List MSetItem)
    (h : acc.Pairwise distinct_keys) :
    (stream.foldl collapse_step acc).Pairwise distinct_keys := by
  induction stream generalizing acc with
  | nil => exact h
  | cons c rest ih => exact ih _ (collapse_step_distinct acc c h)

theorem collapse_distinct (stream : List MSetItem) :
    (collapse stream).Pairwise distinct_keys :=
  foldl_collapse_step_distinct stream [] List.Pairwise.nil

theorem collapse_insert_null (c : MSetItem) (acc : List MSetItem)
    (hc : c.collapse_key ≠ "") :
    (collapse_insert c acc).filter null_key = acc.filter null_key := by
  induction acc with
  | nil => simp [collapse_insert, null_key, hc]
  | cons e rest ih =>
    unfold collapse_insert
    by_cases hk : e.collapse_key = c.collapse_key
    · have he : e.collapse_key ≠ "" := by rw [hk]; exact hc
      rw [if_pos hk]
      by_cases hw : e.wt < c.wt
      · simp [hw, null_key, hc, he]
      · simp [hw, null_key, he]
    · rw [if_neg hk, List.filter_cons, List.filter_cons, ih]

theorem collapse_step_null (acc : List MSetItem) (c : MSetItem) :
    (collapse_step acc c).filter null_key = acc.filter null_key ++ [c].filter null_key := by
  unfold collapse_step
  by_cases hc : c.collapse_key = ""
  · rw [if_pos hc, List.filter_append]
  · rw [if_neg hc, collapse_insert_null c acc hc]
    simp [null_key, hc]

theorem foldl_collapse_step_null (stream acc : List MSetItem) :
    (stream.foldl collapse_step acc).filter null_key =
      acc.filter null_key ++ stream.filter null_key := by
  induction stream generalizing acc with
  | nil => simp
  | cons c rest ih =>
    rw [List.foldl_cons, ih, collapse_step_null, List.append_assoc, ← List.filter_append]
    rfl

theorem collapse_insert_length (c : MSetItem) (acc : List MSetItem) :
    (collapse_insert c acc).length ≤ acc.length + 1 := by
  induction acc with
  | nil => simp [collapse_insert]
  | cons e rest ih =>
    unfold collapse_insert
    by_cases hk : e.collapse_key = c.collapse_key
    · rw [if_pos hk]; simp
    · rw [if_neg hk]; simpa using ih

theorem foldl_collapse_step_length (stream acc : List MSetItem) :
    (stream.foldl collapse_step acc).length ≤ acc.length + stream.length := by
  induction stream generalizing acc with
  | nil => simp
  | cons c rest ih =>
    rw [List.foldl_cons]
    have h1 := ih (collapse_step acc c)
    have h2 : (collapse_step acc c).length ≤ acc.length + 1 := by
      unfold collapse_step
      by_cases hc : c.collapse_key = ""
      · rw [if_pos hc]; simp
      · rw [if_neg hc]; exact collapse_insert_length c acc
    simp only [List.length_cons]
    omega

/-- C3: in the items returned with collapsing active no two distinct entries carry the
same non-empty `collapse_key`, whatever the sort criterion and the window; collapsing
keeps every candidate whose key is the empty string, unchanged and in order, so with a
window that covers the whole ranking all of them appear among the items. -/
theorem get_mset_items_collapsed (le : MSetItem → MSetItem → Bool)
    (first maxitems : doccount) (stream : List MSetItem) :
    (∀ (i j : Nat) (hi : i < (get_mset_items le true first maxitems stream).length)
        (hj : j < (get_mset_items le true first maxitems stream).length), i ≠ j →
        ((get_mset_items le true first maxitems stream)[i]).collapse_key ≠ "" →
        ((get_mset_items le true first maxitems stream)[i]).collapse_key ≠
          ((get_mset_items le true first maxitems stream)[j]).collapse_key) ∧
    (collapse stream).filter null_key = stream.filter null_key ∧
    ((get_mset_items le true 0 stream.length stream).filter null_key).Perm
      (stream.filter null_key) := by
  have hsorted : ((collapse stream).insertionSort (fun a b => le a b = true)).Pairwise
      distinct_keys :=
    (List.Perm.pairwise_iff (fun h => distinct_keys_symm h)
      (List.perm_insertionSort _ _)).mpr (collapse_distinct stream)
  have hitems : (get_mset_items le true first maxitems stream).Pairwise distinct_keys := by
    unfold get_mset_items
    exact (hsorted.sublist (List.drop_sublist _ _)).sublist (List.take_sublist _ _)
  have hnull : (collapse stream).filter null_key = stream.filter null_key := by
    unfold collapse
    rw [foldl_collapse_step_null]; rfl
  refine ⟨?_, hnull, ?_⟩
  · intro i j hi hj hij
    rw [List.pairwise_iff_getElem] at hitems
    rcases Nat.lt_or_gt_of_ne hij with hlt | hgt
    · exact hitems i j hi hj hlt
    · exact distinct_keys_symm (hitems j i hj hi hgt)
  · have hlen : ((collapse stream).insertionSort (fun a b => le a b = true)).length
        ≤ stream.length := by
      rw [List.length_insertionSort]
      have := foldl_collapse_step_length stream []
      simpa [collapse] using this
    unfold get_mset_items
    rw [if_pos rfl, List.drop_zero, List.take_of_length_le hlen, ← hnull]
    exact List.Perm.filter _ (List.perm_insertionSort _ _)

/-- The collapse scenario of the specification: of two candidates with the same key and
weights 9 and 5 the one of weight 9 is kept with `collapse_count = 1`; the candidate
without a key is untouched. -/
theorem get_mset_items_scenario :
    get_mset_items by_relevance true 0 10
      [MSetItem.MSetItem3 9 1 "k", MSetItem.MSetItem2 7 2, MSetItem.MSetItem3 5 3 "k"]
    = [MSetItem.MSetItem4 9 1 "k" 1, MSetItem.MSetItem2 7 2] := by decide

/-! Ranking by relevance: the top entry of the returned items. -/

theorem by_relevance_iff (a b : MSetItem) :
    by_relevance a b = true ↔ b.wt < a.wt ∨ (a.wt = b.wt ∧ a.did ≤ b.did) := by
  simp [by_relevance]

theorem by_relevance_total (a b : MSetItem) :
    by_relevance a b = true ∨ by_relevance b a = true := by
  rw [by_relevance_iff, by_relevance_iff]
  rcases lt_trichotomy a.wt b.wt with h | h | h
  · exact Or.inr (Or.inl h)
  · rcases Nat.le_total a.did b.did with hd | hd
    · exact Or.inl (Or.inr ⟨h, hd⟩)
    · exact Or.inr (Or.inr ⟨h.symm, hd⟩)
  · exact Or.inl (Or.inl h)

theorem by_relevance_trans (a b c : MSetItem) (hab : by_relevance a b = true)
    (hbc : by_relevance b c = true) : by_relevance a c = true := by
  rw [by_relevance_iff] at *
  rcases hab with h1 | ⟨h1, d1⟩ <;> rcases hbc with h2 | ⟨h2, d2⟩
  · exact Or.inl (lt_trans h2 h1)
  · exact Or.inl (by rw [← h2]; exact h1)
  · exact Or.inl (by rw [h1]; exact h2)
  · exact Or.inr ⟨h1.trans h2, Nat.le_trans d1 d2⟩

theorem by_relevance_weight (a b : MSetItem) (h : by_relevance a b = true) : b.wt ≤ a.wt := by
  rw [by_relevance_iff] at h
  rcases h with h | ⟨h, _⟩
  · exact le_of_lt h
  · exact le_of_eq h.symm

/-- Ranking by relevance puts an entry of the greatest weight first. -/
theorem ranked_head_weight (l : List MSetItem) (w : weight)
    (hin : ∃ x ∈ l, x.wt = w) (hub : ∀ x ∈ l, x.wt ≤ w) :
    (l.insertionSort (fun a b => by_relevance a b = true)).head?.map MSetItem.wt = some w := by
  haveI : IsTotal MSetItem (fun a b => by_relevance a b = true) := ⟨by_relevance_total⟩
  haveI : IsTrans MSetItem (fun a b => by_relevance a b = true) := ⟨by_relevance_trans⟩
  have hsorted := List.sorted_insertionSort (fun a b => by_relevance a b = true) l
  obtain ⟨x, hx, hxw⟩ := hin
  have hxs : x ∈ l.insertionSort (fun a b => by_relevance a b = true) :=
    (List.mem_insertionSort _).mpr hx
  cases hs : l.insertionSort (fun a b => by_relevance a b = true) with
  | nil => rw [hs] at hxs; cases hxs
  | cons h t =>
    rw [hs] at hxs hsorted
    have hh : h ∈ l := (List.mem_insertionSort (fun a b => by_relevance a b = true)).mp
      (by rw [hs]; exact List.mem_cons_self _ _)
    have hle : h.wt ≤ w := hub h hh
    have hge : w ≤ h.wt := by
      rcases List.mem_cons.mp hxs with hxh | hxt
      · rw [← hxw, hxh]
      · rw [← hxw]
        exact by_relevance_weight h x (List.rel_of_sorted_cons hsorted x hxt)
    show some h.wt = some w
    rw [le_antisymm hle hge]

theorem collapse_insert_weights (c : MSetItem) (acc : List MSetItem) (y : MSetItem)
    (hy : y ∈ collapse_insert c acc) : y.wt = c.wt ∨ ∃ x ∈ acc, y.wt = x.wt := by
  induction acc with
  | nil =>
    simp only [collapse_insert, List.mem_singleton] at hy
    exact Or.inl (by rw [hy])
  | cons e rest ih =>
    unfold collapse_insert at hy
    by_cases hk : e.collapse_key = c.collapse_key
    · rw [if_pos hk] at hy
      rcases List.mem_cons.mp hy with h | h
      · by_cases hw : e.wt < c.wt
        · rw [if_pos hw] at h; exact Or.inl (by rw [h])
        · rw [if_neg hw] at h
          exact Or.inr ⟨e, List.mem_cons_self _ _, by rw [h]⟩
      · exact Or.inr ⟨y, List.mem_cons_of_mem _ h, rfl⟩
    · rw [if_neg hk] at hy
      rcases List.mem_cons.mp hy with h | h
      · exact Or.inr ⟨e, List.mem_cons_self _ _, by rw [h]⟩
      · rcases ih h with h2 | ⟨x, hx, hxw⟩
        · exact Or.inl h2
        · exact Or.inr ⟨x, List.mem_cons_of_mem _ hx, hxw⟩

theorem collapse_insert_covers (c : MSetItem) (acc : List MSetItem) :
    (∃ y ∈ collapse_insert c acc, c.wt ≤ y.wt) ∧
    ∀ x ∈ acc, ∃ y ∈ collapse_insert c acc, x.wt ≤ y.wt := by
  induction acc with
  | nil =>
    exact ⟨⟨c, by simp [collapse_insert], le_refl _⟩, fun x hx => by cases hx⟩
  | cons e rest ih =>
    unfold collapse_insert
    by_cases hk : e.collapse_key = c.collapse_key
    · rw [if_pos hk]
      by_cases hw : e.wt < c.wt
      · rw [if_pos hw]
        refine ⟨⟨_, List.mem_cons_self _ _, le_refl c.wt⟩, ?_⟩
        intro x hx
        rcases List.mem_cons.mp hx with h | h
        · exact ⟨_, List.mem_cons_self _ _, by rw [h]; exact le_of_lt hw⟩
        · exact ⟨x, List.mem_cons_of_mem _ h, le_refl _⟩
      · rw [if_neg hw]
        refine ⟨⟨_, List.mem_cons_self _ _, not_lt.mp hw⟩, ?_⟩
        intro x hx
        rcases List.mem_cons.mp hx with h | h
        · exact ⟨_, List.mem_cons_self _ _, by rw [h]⟩
        · exact ⟨x, List.mem_cons_of_mem _ h, le_refl _⟩
    · rw [if_neg hk]
      obtain ⟨⟨y, hy, hcy⟩, hrest⟩ := ih
      refine ⟨⟨y, List.mem_cons_of_mem _ hy, hcy⟩, ?_⟩
      intro x hx
      rcases List.mem_cons.mp hx with h | h
      · exact ⟨e, List.mem_cons_self _ _, by rw [h]⟩
      · obtain ⟨z, hz, hxz⟩ := hrest x h
        exact ⟨z, List.mem_cons_of_mem _ hz, hxz⟩

theorem collapse_step_weights (acc : List MSetItem) (c y : MSetItem)
    (hy : y ∈ collapse_step acc c) : y.wt = c.wt ∨ ∃ x ∈ acc, y.wt = x.wt := by
  unfold collapse_step at hy
  by_cases hc : c.collapse_key = ""
  · rw [if_pos hc] at hy
    rcases List.mem_append.mp hy with h | h
    · exact Or.inr ⟨y, h, rfl⟩
    · exact Or.inl (by rw [List.mem_singleton.mp h])
  · rw [if_neg hc] at hy
    exact collapse_insert_weights c acc y hy

theorem collapse_step_covers (acc : List MSetItem) (c : MSetItem) :
    (∃ y ∈ collapse_step acc c, c.wt ≤ y.wt) ∧
    ∀ x ∈ acc, ∃ y ∈ collapse_step acc c, x.wt ≤ y.wt := by
  unfold collapse_step
  by_cases hc : c.collapse_key = ""
  · rw [if_pos hc]
    exact ⟨⟨c, by simp, le_refl _⟩, fun x hx => ⟨x, by simp [hx], le_refl _⟩⟩
  · rw [if_neg hc]
    exact collapse_insert_covers c acc

theorem foldl_collapse_step_top (stream acc : List MSetItem) (w : weight)
    (hin : (∃ x ∈ acc, x.wt = w) ∨ ∃ x ∈ stream, x.wt = w)
    (hacc : ∀ x ∈ acc, x.wt ≤ w) (hub : ∀ x ∈ stream, x.wt ≤ w) :
    (∃ x ∈ stream.foldl collapse_step acc, x.wt = w) ∧
    ∀ x ∈ stream.foldl collapse_step acc, x.wt ≤ w := by
  induction stream generalizing acc with
  | nil =>
    rcases hin with h | ⟨x, hx, _⟩
    · exact ⟨h, hacc⟩
    · cases hx
  | cons c rest ih =>
    rw [List.foldl_cons]
    have hc : c.wt ≤ w := hub c (List.mem_cons_self _ _)
    have hacc2 : ∀ x ∈ collapse_step acc c, x.wt ≤ w := by
      intro y hy
      rcases collapse_step_weights acc c y hy with h | ⟨x, hx, hxw⟩
      · rw [h]; exact hc
      · rw [hxw]; exact hacc x hx
    obtain ⟨⟨yc, hyc, hcy⟩, hcov⟩ := collapse_step_covers acc c
    apply ih _ _ hacc2 (fun x hx => hub x (List.mem_cons_of_mem _ hx))
    rcases hin with ⟨x, hx, hxw⟩ | ⟨x, hx, hxw⟩
    · obtain ⟨y, hy, hxy⟩ := hcov x hx
      exact Or.inl ⟨y, hy, le_antisymm (hacc2 y hy) (by rw [← hxw]; exact hxy)⟩
    · rcases List.mem_cons.mp hx with h | h
      · exact Or.inl ⟨yc, hyc, le_antisymm (hacc2 yc hyc) (by rw [← hxw, h]; exact hcy)⟩
      · exact Or.inr ⟨x, h, hxw⟩

/-- In relevance order, with a window that starts at rank 0 and is not empty, the top
entry of the returned items has the greatest weight among the candidates, collapsing or
not: the top document heads the items unless it was excluded from the candidates. -/
theorem get_mset_items_top_weight (collapsing : Bool) (maxitems : doccount)
    (stream : List MSetItem) (w : weight) (hwindow : 0 < maxitems)
    (hin : ∃ x ∈ stream, x.wt = w) (hub : ∀ x ∈ stream, x.wt ≤ w) :
    (get_mset_items by_relevance collapsing 0 maxitems stream).head?.map MSetItem.wt
      = some w := by
  unfold get_mset_items
  rw [List.drop_zero]
  obtain ⟨k, hk⟩ := Nat.exists_eq_succ_of_ne_zero (Nat.pos_iff_ne_zero.mp hwindow)
  have hhead : ∀ l : List MSetItem, (l.take maxitems).head? = l.head? := by
    intro l; cases l with
    | nil => simp
    | cons a t => rw [hk]; rfl
  rw [hhead]
  cases collapsing with
  | false => exact ranked_head_weight stream w hin hub
  | true =>
    have h := foldl_collapse_step_top stream [] w (Or.inr hin)
      (fun x hx => by cases hx) hub
    exact ranked_head_weight (collapse stream) w h.1 h.2

end Xapian
